import Mathlib

/-!
Verification development for the company-researcher system: a shallow
embedding of its core algorithms (gap detection, the gap-fill agent
workflow, the interview convergence loop, the search-result rendering and
the research workflow graph), with theorems settling the specified
properties against it.
-/

namespace CompanyResearcher

/-! ## Generic record values

`Data` models the dynamic values produced by `model_dump()` on a pydantic
record: `None`, strings, numbers, lists and nested mappings
(`src/src/company_researcher/agents/base_agent.py`).
-/

/-- A dynamic value as `BaseAgent._check_missing_fields` walks it: `None`,
a string, a number, a list (also standing for tuples and sets, which the
code treats identically), or a mapping from field names to values. -/
inductive Data where
  | null : Data
  | str : String → Data
  | num : Int → Data
  | list : List Data → Data
  | dict : List (String × Data) → Data

/-- Python `str.strip()`: the string with leading and trailing whitespace
removed, on the character list view. -/
def pyStrip (s : String) : String :=
  ⟨((s.data.dropWhile Char.isWhitespace).reverse.dropWhile Char.isWhitespace).reverse⟩

/-- Python `str.lower()` on the character list view. -/
def pyLower (s : String) : String :=
  ⟨s.data.map Char.toLower⟩

/-- Python substring test `needle in hay` on character lists. -/
def containsSub (needle : List Char) : List Char → Bool
  | [] => needle.isEmpty
  | c :: rest => needle.isPrefixOf (c :: rest) || containsSub needle rest

/-- Python `needle in hay` for strings. -/
def pyInStr (needle hay : String) : Bool :=
  containsSub needle.data hay.data

/-! ## Gap detection

`BaseAgent._check_missing_fields` (base_agent.py lines 134-164): the inner
`has_missing_fields` returns `True` on `None`, on a string empty after
stripping, on an empty list/tuple/set, and recursively on dictionary
values and container items; otherwise it falls through (returning `None`,
which is falsy, modelled as `false`).
-/

mutual

/-- The recursive predicate of `BaseAgent._check_missing_fields`. -/
def has_missing_fields : Data → Bool
  | Data.null => true
  | Data.str s => (pyStrip s).isEmpty
  | Data.num _ => false
  | Data.list xs => xs.isEmpty || anyItemMissing xs
  | Data.dict fs => anyValueMissing fs

/-- The loop `for item in data: if has_missing_fields(item)` over a list. -/
def anyItemMissing : List Data → Bool
  | [] => false
  | x :: xs => has_missing_fields x || anyItemMissing xs

/-- The loop `for v in data.values(): if has_missing_fields(v)` over a dict. -/
def anyValueMissing : List (String × Data) → Bool
  | [] => false
  | kv :: fs => has_missing_fields kv.2 || anyValueMissing fs

end

/-- The missing-data notion as the specification states it: some field is
null, an empty string after trimming, or an empty list, recursing into
nested records and into list elements. -/
inductive SpecMissing : Data → Prop where
  | null : SpecMissing Data.null
  | emptyStr (s : String) : pyStrip s = "" → SpecMissing (Data.str s)
  | emptyList : SpecMissing (Data.list [])
  | listElem (x : Data) (xs : List Data) : x ∈ xs → SpecMissing x →
      SpecMissing (Data.list xs)
  | dictField (k : String) (v : Data) (fs : List (String × Data)) :
      (k, v) ∈ fs → SpecMissing v → SpecMissing (Data.dict fs)

theorem anyItemMissing_eq_any (xs : List Data) :
    anyItemMissing xs = xs.any has_missing_fields := by
  induction xs with
  | nil => rfl
  | cons x xs ih => simp [anyItemMissing, ih]

theorem anyValueMissing_eq_any (fs : List (String × Data)) :
    anyValueMissing fs = fs.any (fun kv => has_missing_fields kv.2) := by
  induction fs with
  | nil => rfl
  | cons kv fs ih => simp [anyValueMissing, ih]

theorem isEmpty_iff_eq_empty (s : String) : s.isEmpty = true ↔ s = "" :=
  String.isEmpty_iff s

theorem missing_iff_spec_aux :
    ∀ n (d : Data), sizeOf d ≤ n → (has_missing_fields d = true ↔ SpecMissing d) := by
  intro n
  induction n with
  | zero =>
    intro d h
    cases d <;> simp at h
  | succ n ih =>
    intro d h
    cases d with
    | null =>
      constructor
      · intro _
        exact SpecMissing.null
      · intro _
        rfl
    | str s =>
      simp only [has_missing_fields]
      constructor
      · intro hm
        exact SpecMissing.emptyStr s ((isEmpty_iff_eq_empty (pyStrip s)).mp hm)
      · intro hs
        cases hs with
        | emptyStr _ he => exact (isEmpty_iff_eq_empty (pyStrip s)).mpr he
    | num k =>
      constructor
      · intro hm
        simp [has_missing_fields] at hm
      · intro hs
        cases hs
    | list xs =>
      have hsize : ∀ x ∈ xs, sizeOf x ≤ n := by
        intro x hx
        have h1 : sizeOf x < sizeOf xs := List.sizeOf_lt_of_mem hx
        have h2 : sizeOf (Data.list xs) = 1 + sizeOf xs := by simp
        omega
      simp only [has_missing_fields, anyItemMissing_eq_any]
      constructor
      · intro hm
        rcases Bool.or_eq_true_iff.mp hm with hempty | hany
        · have : xs = [] := by
            cases xs with
            | nil => rfl
            | cons y ys => simp at hempty
          subst this
          exact SpecMissing.emptyList
        · rcases List.any_eq_true.mp hany with ⟨x, hx, hxm⟩
          exact SpecMissing.listElem x xs hx ((ih x (hsize x hx)).mp hxm)
      · intro hs
        cases hs with
        | emptyList => simp
        | listElem x _ hx hxs =>
          have hx1 : has_missing_fields x = true := (ih x (hsize x hx)).mpr hxs
          have hany : xs.any has_missing_fields = true :=
            List.any_eq_true.mpr ⟨x, hx, hx1⟩
          simp [hany]
    | dict fs =>
      have hsize : ∀ kv ∈ fs, sizeOf kv.2 ≤ n := by
        intro kv hkv
        have h1 : sizeOf kv < sizeOf fs := List.sizeOf_lt_of_mem hkv
        have h2 : sizeOf (Data.dict fs) = 1 + sizeOf fs := by simp
        have h3 : sizeOf kv.2 < sizeOf kv := by
          cases kv with
          | mk k v => simp
        omega
      simp only [has_missing_fields, anyValueMissing_eq_any]
      constructor
      · intro hm
        rcases List.any_eq_true.mp hm with ⟨kv, hkv, hvm⟩
        exact SpecMissing.dictField kv.1 kv.2 fs (by simpa using hkv)
          ((ih kv.2 (hsize kv hkv)).mp hvm)
      · intro hs
        cases hs with
        | dictField k v _ hkv hvs =>
          have : has_missing_fields v = true := (ih v (hsize (k, v) hkv)).mpr hvs
          exact List.any_eq_true.mpr ⟨(k, v), hkv, this⟩

/-- C2: the gap-detection predicate reports missing data exactly when some
field is null, an empty string after trimming, or an empty list, recursing
into nested records and into list elements; on every other value it
reports no gap. -/
theorem gap_detection_iff_spec_missing (d : Data) :
    has_missing_fields d = true ↔ SpecMissing d :=
  missing_iff_spec_aux (sizeOf d) d (Nat.le_refl _)

/-! ## Record merge

The merge of the conditional-fill stage is performed by the Language Model
Port: `BaseAgent._process_data` (base_agent.py lines 214-233) sends the
partial record and the search results to the model with the instruction
"For any field that is non-empty in the partial input, preserve its value
exactly; fill only empty or missing fields using the search results."
The merge function itself is therefore not code of this repository and is
modelled here from the words of the specification.
-/

/-- A value is populated when it is none of the empty leaves the gap
detector flags at top level: null, a string empty after stripping, or an
empty list. -/
def populatedValue : Data → Bool
  | Data.null => false
  | Data.str s => !(pyStrip s).isEmpty
  | Data.list xs => !xs.isEmpty
  | _ => true

/-- A research record: named fields with their current values. -/
abbrev Record := List (String × Data)

/-- The first value stored under a field name. -/
def lookupField : Record → String → Option Data
  | [], _ => none
  | (k2, v) :: rest, k => if k2 = k then some v else lookupField rest k

/-- Modelled from the spec: the field-level merge the Language Model Port
is instructed to perform in the conditional-fill stage (the merge is a
language-model call, not code of this repository). A populated field of
the grounded record keeps its value exactly; an empty or missing field is
filled from the candidate record. -/
def mergeField (b : Record) (k : String) (v : Data) : Data :=
  if populatedValue v then v
  else
    match lookupField b k with
    | some w => w
    | none => v

/-- Modelled from the spec: merging the candidate fill `b` into the
grounded record `a` under the preserve-populated-fields rule, field by
field. -/
def mergeRecords (a b : Record) : Record :=
  a.map (fun kv => (kv.1, mergeField b kv.1 kv.2))

/-- C1: the merge never overwrites a populated field: every populated
field of the grounded record keeps exactly its value in the merged
record, for all records and all candidate fills. -/
theorem merge_preserves_populated_fields (a b : Record) (k : String) (v : Data)
    (hfind : lookupField a k = some v) (hpop : populatedValue v = true) :
    lookupField (mergeRecords a b) k = some v := by
  induction a with
  | nil => simp [lookupField] at hfind
  | cons kv rest ih =>
    cases kv with
    | mk k2 w =>
      by_cases hk : k2 = k
      · subst hk
        simp [lookupField] at hfind
        subst hfind
        simp [mergeRecords, lookupField, mergeField, hpop]
      · simp only [lookupField, if_neg hk] at hfind
        have hrest := ih hfind
        simp only [mergeRecords, List.map_cons, lookupField, if_neg hk]
        simpa [mergeRecords] using hrest

/-- Witness for C1 at a concrete pair of records: the populated field
keeps its grounded value even though the candidate fill disagrees. -/
theorem merge_preserves_populated_fields_witness :
    lookupField
      (mergeRecords
        [("industry", Data.str "software"), ("revenue", Data.null)]
        [("industry", Data.str "hardware"), ("revenue", Data.num 10)])
      "industry" = some (Data.str "software") :=
  merge_preserves_populated_fields
    [("industry", Data.str "software"), ("revenue", Data.null)]
    [("industry", Data.str "hardware"), ("revenue", Data.num 10)]
    "industry" (Data.str "software") rfl rfl

/-! ## Search results and their rendering

From `src/src/company_researcher/core/api_clients/tavily_client.py`:
`ResultCandidate`, `SearchResponse` and `SearchResponse.to_string`, which
renders a response for the language model.  Relevance scores are floats in
the source, embedded as rationals.
-/

/-- `ResultCandidate`: one search hit with its relevance score. -/
structure ResultCandidate where
  title : String
  url : String
  content : String
  score : ℚ
deriving DecidableEq

/-- `SearchResponse`: the answer and candidate list for one query. -/
structure SearchResponse where
  query : String
  answer : Option String
  candidates : List ResultCandidate
deriving DecidableEq

/-- Python `sorted(candidates, key=lambda x: x.score, reverse=True)`:
stable sort by descending relevance score. -/
def sortByScoreDesc (cs : List ResultCandidate) : List ResultCandidate :=
  cs.mergeSort (fun a b => decide (b.score ≤ a.score))

/-- The candidates `to_string` renders: the first `topK` of the
score-descending sort (`sorted(...)[:top_k_candidates]`, default 3). -/
def renderedCandidates (r : SearchResponse) (topK : Nat) : List ResultCandidate :=
  if r.candidates.isEmpty then [] else (sortByScoreDesc r.candidates).take topK

/-- Two-decimal rendering of a score, standing for Python `f"{x:.2f}"`
(half-up rounding to hundredths, computed on the numerator and
denominator; scores are non-negative). -/
def fmtScore (q : ℚ) : String :=
  let cents : Int := (q.num * 100 + (q.den : Int) / 2) / (q.den : Int)
  let whole := cents / 100
  let frac := (cents % 100).natAbs
  toString whole ++ "." ++ (if frac < 10 then "0" ++ toString frac else toString frac)

/-- The lines `to_string` appends for one rendered candidate: the title
and url, the snippet when the content is non-empty, and the score when it
is non-zero. -/
def candidateLines (c : ResultCandidate) : List String :=
  ["- " ++ c.title ++ " (" ++ c.url ++ ")"]
    ++ (if c.content ≠ "" then ["  Snippet: " ++ c.content] else [])
    ++ (if c.score ≠ 0 then ["  Score: " ++ fmtScore c.score] else [])

/-- `SearchResponse.to_string` (tavily_client.py lines 41-56): the query
line when the query is non-empty, the answer line when an answer is
present and non-empty, and a `Results:` block listing only the top
`topK` candidates by descending score. -/
def searchResponseToString (r : SearchResponse) (topK : Nat) : String :=
  let info :=
    (if r.query ≠ "" then ["Query: " ++ r.query] else [])
      ++ (match r.answer with
          | some a => if a ≠ "" then ["Snippet: " ++ a] else []
          | none => [])
      ++ (if r.candidates.isEmpty then []
          else "Results:" :: ((renderedCandidates r topK).map candidateLines).flatten)
  String.intercalate "\n" info

/-- The search-results text `TopicResearchAgent._search_web_and_answer`
places in the prompt of the answering language-model call
(topic_research_agent.py line 160): the responses rendered with the
default `top_k_candidates = 3` and joined with a separator. -/
def renderSearchResults (rs : List SearchResponse) : String :=
  String.intercalate "\n########\n" (rs.map (fun r => searchResponseToString r 3))

/-- A concrete response with four candidates; the lowest-scored one is
titled distinctively. -/
def lowRankCandidate : ResultCandidate :=
  ⟨"deltacorp report", "example.com/4", "fourth snippet", mkRat 1 10⟩

/-- A search response with four candidates of distinct scores. -/
def fourCandidateResponse : SearchResponse :=
  { query := "acme revenue"
    answer := some "the answer text"
    candidates :=
      [⟨"alphacorp page", "example.com/1", "first snippet", mkRat 9 10⟩,
       ⟨"betacorp page", "example.com/2", "second snippet", mkRat 4 5⟩,
       ⟨"gammacorp page", "example.com/3", "third snippet", mkRat 7 10⟩,
       lowRankCandidate] }

set_option maxRecDepth 4000 in
unseal List.merge List.mergeSort in
/-- C9 counterexample: the rendering stage does discard a candidate on
the basis of its relevance-score rank: with four candidates, the
lowest-scored one is absent from the rendered candidates and its title
never reaches the text handed to the language model, while a higher
ranked one does. -/
theorem to_string_discards_low_rank_candidate :
    lowRankCandidate ∈ fourCandidateResponse.candidates ∧
    lowRankCandidate ∉ renderedCandidates fourCandidateResponse 3 ∧
    pyInStr "deltacorp" (renderSearchResults [fourCandidateResponse]) = false ∧
    pyInStr "alphacorp" (renderSearchResults [fourCandidateResponse]) = true := by
  decide

theorem mem_of_not_mem_take {α : Type} (l : List α) (k : Nat) (x : α)
    (hx : x ∈ l) (hnot : x ∉ l.take k) : x ∈ l.drop k := by
  have := (List.take_append_drop k l) ▸ hx
  rcases List.mem_append.mp this with h | h
  · exact absurd h hnot
  · exact h

theorem sortByScoreDesc_sorted (cs : List ResultCandidate) :
    (sortByScoreDesc cs).Pairwise (fun a b => decide (b.score ≤ a.score) = true) := by
  have h := @List.sorted_mergeSort ResultCandidate
    (fun a b : ResultCandidate => decide (b.score ≤ a.score))
    (fun a b c hab hbc => by
      simp only [decide_eq_true_eq] at *
      exact le_trans hbc hab)
    (fun a b => by
      simp only [Bool.or_eq_true, decide_eq_true_eq]
      exact le_total b.score a.score)
    cs
  simpa [sortByScoreDesc] using h

/-- C9 amended: the consuming stage receives only the top `topK`
candidates of each response, selected by relevance-score rank: every
candidate excluded from the rendering has a score at most that of every
rendered one. -/
theorem rendered_candidates_are_top_ranked (r : SearchResponse) (topK : Nat)
    (c d : ResultCandidate)
    (hc : c ∈ renderedCandidates r topK)
    (hd : d ∈ r.candidates)
    (hdnot : d ∉ renderedCandidates r topK) :
    d.score ≤ c.score := by
  by_cases hempty : r.candidates.isEmpty
  · simp [renderedCandidates, hempty] at hc
  · have hrend : renderedCandidates r topK = (sortByScoreDesc r.candidates).take topK := by
      simp [renderedCandidates, hempty]
    rw [hrend] at hc hdnot
    have hdsort : d ∈ sortByScoreDesc r.candidates := by
      have hperm : List.Perm (sortByScoreDesc r.candidates) r.candidates :=
        List.mergeSort_perm r.candidates _
      exact hperm.mem_iff.mpr hd
    have hddrop : d ∈ (sortByScoreDesc r.candidates).drop topK :=
      mem_of_not_mem_take _ topK d hdsort hdnot
    have hsorted := sortByScoreDesc_sorted r.candidates
    have hsplit :
        List.Pairwise (fun a b => decide (b.score ≤ a.score) = true)
          ((sortByScoreDesc r.candidates).take topK
            ++ (sortByScoreDesc r.candidates).drop topK) := by
      rw [List.take_append_drop]
      exact hsorted
    have hcross := (List.pairwise_append.mp hsplit).2.2 c hc d hddrop
    simpa using hcross

unseal List.merge List.mergeSort in
/-- Witness for the amended C9 at the concrete four-candidate response:
the excluded candidate scores no higher than a rendered one. -/
theorem rendered_candidates_are_top_ranked_witness :
    lowRankCandidate.score ≤ (⟨"alphacorp page", "example.com/1", "first snippet",
      mkRat 9 10⟩ : ResultCandidate).score :=
  rendered_candidates_are_top_ranked fourCandidateResponse 3
    ⟨"alphacorp page", "example.com/1", "first snippet", mkRat 9 10⟩
    lowRankCandidate (by decide) (by decide) (by decide)

/-! ## The gap-fill agent workflow

`BaseAgent.run_agent_workflow` in
`src/src/company_researcher/agents/base_agent.py` (lines 92-132) and the
duplicate variant in `agents/BaseAgent.py` (lines 108-145).  The language
model and the Tavily search port are external collaborators, embedded as
oracle functions; the workflow records every port invocation it performs.
The concrete agent instantiated here is `FinancialHealthAgent`
(financial_health_agent.py), whose `get_state_field_name` returns
`financial_health`.
-/

/-- `PageContent`: one cleaned unit of crawled content. -/
structure PageContent where
  url : String
  raw_content : String
deriving DecidableEq

/-- `ResearchState` (workflow/states.py): the shared record threaded
through the workflow.  The typed domain records are embedded as generic
`Data` values; `site_content` is the field `get_site_content` reads. -/
structure ResearchState where
  company_name : String
  company_url : String
  background : Option Data
  financial_health : Option Data
  market_position : Option Data
  recent_important_news : List Data
  final_report : Option String
  current_step : Option String
  errors : List String
  site_content : List PageContent

/-- One invocation of an external port by the workflow, in order. -/
inductive PortCall where
  | llmGround (content : List PageContent)
  | llmGenQueries (maxQueries : Nat)
  | tavilySearch (queries : List String)
  | llmProcessData (results : List SearchResponse)

/-- The external collaborators of the workflow: the grounding call, the
query-generation call, the Tavily batch search and the merging call. -/
structure GapFillOracles where
  ground : List PageContent → Data
  genQueries : Data → Nat → List String
  search : List String → List SearchResponse
  processData : Data → List SearchResponse → Data

/-- Is the call an invocation of the Search Port? -/
def isSearchPortCall : PortCall → Bool
  | PortCall.tavilySearch _ => true
  | _ => false

/-- Is the call the query-generation language-model call of stage 4? -/
def isQueryGenCall : PortCall → Bool
  | PortCall.llmGenQueries _ => true
  | _ => false

/-- `BaseAgent.run_agent_workflow` (base_agent.py lines 92-132) for the
financial-health agent: read the site content from the state, ground it
(raising `ValueError` when the content is empty, before any model call),
check for missing fields, and only when gaps exist generate queries,
search, and merge; finally return `state.model_copy` updated at the
declared output field and `current_step`.  The second component is the
list of port invocations performed. -/
def runAgentWorkflow (o : GapFillOracles) (maxQueries : Nat) (st : ResearchState) :
    Except String ResearchState × List PortCall :=
  let siteContent := st.site_content
  if siteContent.isEmpty then
    (Except.error "No financial health content found on the site.", [])
  else
    let grounded := o.ground siteContent
    if has_missing_fields grounded then
      let queries := o.genQueries grounded maxQueries
      let results := o.search queries
      let finalInfo := o.processData grounded results
      (Except.ok { st with financial_health := some finalInfo,
                           current_step := some "FinancialHealthAgent" },
       [PortCall.llmGround siteContent, PortCall.llmGenQueries maxQueries,
        PortCall.tavilySearch queries, PortCall.llmProcessData results])
    else
      (Except.ok { st with financial_health := some grounded,
                           current_step := some "FinancialHealthAgent" },
       [PortCall.llmGround siteContent])

/-- The duplicate `BaseAgent.run_agent_workflow` of `agents/BaseAgent.py`
(lines 108-145): identical pipeline but with no gap check at all — it
always generates queries, searches and merges, whatever the grounded
record contains (`get_additional_state_updates` returns the empty dict in
the base class). -/
def runAgentWorkflowLegacy (o : GapFillOracles) (maxQueries : Nat) (st : ResearchState) :
    Except String ResearchState × List PortCall :=
  let siteContent := st.site_content
  if siteContent.isEmpty then
    (Except.error "No financial health content found on the site.", [])
  else
    let grounded := o.ground siteContent
    let queries := o.genQueries grounded maxQueries
    let results := o.search queries
    let finalInfo := o.processData grounded results
    (Except.ok { st with financial_health := some finalInfo,
                         current_step := some "FinancialHealthAgent" },
     [PortCall.llmGround siteContent, PortCall.llmGenQueries maxQueries,
      PortCall.tavilySearch queries, PortCall.llmProcessData results])

/-- A concrete state with one crawled page. -/
def exState : ResearchState :=
  { company_name := "Acme"
    company_url := "acme.example"
    background := none
    financial_health := none
    market_position := none
    recent_important_news := []
    final_report := none
    current_step := none
    errors := []
    site_content := [⟨"acme.example", "Acme makes anvils."⟩] }

/-- Concrete oracles whose grounding output has no gaps. -/
def exOracles : GapFillOracles :=
  { ground := fun _ => Data.dict [("revenue", Data.num 100), ("burn_rate", Data.str "low")]
    genQueries := fun _ _ => ["acme revenue"]
    search := fun _ => []
    processData := fun g _ => g }

/-- C3 counterexample: in the duplicate workflow of `agents/BaseAgent.py`
a grounded record with zero gaps still triggers stage 4 — the Search Port
is invoked and queries are generated, so the claim does not hold of every
gap-fill workflow in the source. -/
theorem legacy_workflow_searches_without_gaps :
    has_missing_fields (exOracles.ground exState.site_content) = false ∧
    (runAgentWorkflowLegacy exOracles 5 exState).2.any isSearchPortCall = true ∧
    (runAgentWorkflowLegacy exOracles 5 exState).2.any isQueryGenCall = true := by
  decide

/-- C3 amended: in the canonical workflow of `agents/base_agent.py`, a
grounded record with zero gaps short-circuits stage 4 entirely: no query
is generated, the Search Port is never invoked, and the returned state
carries the grounded record unchanged. -/
theorem canonical_workflow_skips_search_without_gaps
    (o : GapFillOracles) (maxQueries : Nat) (st : ResearchState)
    (hcontent : st.site_content.isEmpty = false)
    (hnogap : has_missing_fields (o.ground st.site_content) = false) :
    (runAgentWorkflow o maxQueries st).2.all
        (fun c => !isSearchPortCall c && !isQueryGenCall c) = true ∧
    (runAgentWorkflow o maxQueries st).1 =
      Except.ok { st with financial_health := some (o.ground st.site_content),
                          current_step := some "FinancialHealthAgent" } := by
  simp [runAgentWorkflow, hcontent, hnogap, isSearchPortCall, isQueryGenCall]

/-- Witness for the amended C3 at concrete oracles and state. -/
theorem canonical_workflow_skips_search_without_gaps_witness :
    (runAgentWorkflow exOracles 5 exState).2.all
        (fun c => !isSearchPortCall c && !isQueryGenCall c) = true ∧
    (runAgentWorkflow exOracles 5 exState).1 =
      Except.ok { exState with
                    financial_health := some (exOracles.ground exState.site_content),
                    current_step := some "FinancialHealthAgent" } :=
  canonical_workflow_skips_search_without_gaps exOracles 5 exState rfl (by decide)

/-- C4: with empty acquired content the workflow aborts in stage 2 with
the no-content error, before any language-model or search call: the run
returns the error and the port-call log is empty, so the Search Port is
invoked zero times and stages 3 and 4 are never reached. -/
theorem empty_content_aborts_without_search
    (o : GapFillOracles) (maxQueries : Nat) (st : ResearchState)
    (hempty : st.site_content = []) :
    runAgentWorkflow o maxQueries st =
      (Except.error "No financial health content found on the site.", []) := by
  simp [runAgentWorkflow, hempty]

/-- Witness for C4 at a concrete state with no content. -/
theorem empty_content_aborts_without_search_witness :
    runAgentWorkflow exOracles 5 { exState with site_content := [] } =
      (Except.error "No financial health content found on the site.", []) :=
  empty_content_aborts_without_search exOracles 5
    { exState with site_content := [] } rfl

/-- C10: whenever the generic workflow returns a state, that state agrees
with the input state on every field other than the agent's declared
output field (`financial_health`) and the `current_step` bookkeeping
field. -/
theorem workflow_touches_only_declared_fields
    (o : GapFillOracles) (maxQueries : Nat) (st out : ResearchState)
    (log : List PortCall)
    (hrun : runAgentWorkflow o maxQueries st = (Except.ok out, log)) :
    out.company_name = st.company_name ∧
    out.company_url = st.company_url ∧
    out.background = st.background ∧
    out.market_position = st.market_position ∧
    out.recent_important_news = st.recent_important_news ∧
    out.final_report = st.final_report ∧
    out.errors = st.errors ∧
    out.site_content = st.site_content := by
  by_cases hempty : st.site_content.isEmpty
  · simp [runAgentWorkflow, hempty] at hrun
  · by_cases hmiss : has_missing_fields (o.ground st.site_content)
    · simp [runAgentWorkflow, hempty, hmiss] at hrun
      rw [← hrun.1]
      simp
    · simp [runAgentWorkflow, hempty, hmiss] at hrun
      rw [← hrun.1]
      simp

/-- Witness for C10 at concrete oracles and state: the errors list of the
returned state equals that of the input state. -/
theorem workflow_touches_only_declared_fields_witness :
    ({ exState with financial_health := some (exOracles.ground exState.site_content),
                    current_step := some "FinancialHealthAgent" } : ResearchState).errors =
      exState.errors :=
  (workflow_touches_only_declared_fields exOracles 5 exState
    { exState with financial_health := some (exOracles.ground exState.site_content),
                   current_step := some "FinancialHealthAgent" }
    [PortCall.llmGround exState.site_content] rfl).2.2.2.2.2.2.1

/-! ## The convergence loop

`TopicResearchAgent` in
`src/src/company_researcher/core/agents/topic_research_agent.py` (and the
identical routing in core/agents/research_topic_interviewer.py): the graph
`ask_question` → conditional `route_to_search_or_summarize` →
`search_web_and_answer` → back to `ask_question`, with
`summarize_results` terminal.
-/

/-- One transcript message: speaker tag and text
(`msg.name`, `msg.content`). -/
structure Msg where
  name : String
  content : String
deriving DecidableEq

/-- The number of messages whose speaker is `Expert`
(`[msg for msg in state["messages"] if msg.name == "Expert"]`). -/
def countExpert (msgs : List Msg) : Nat :=
  (msgs.filter (fun m => m.name == "Expert")).length

/-- Does the text contain the termination phrase the interviewer is
instructed to close with?  The source checks the lowercase substring
`thank` of the message (`"thank" in last_interviewer_message.lower()`). -/
def containsTerminationPhrase (s : String) : Bool :=
  pyInStr "thank" (pyLower s)

/-- `TopicResearchAgent.route_to_search_or_summarize`
(topic_research_agent.py lines 90-109): summarize when the count of
Expert turns has reached `max_steps`, or when the last message contains
the termination phrase; otherwise search and answer.  `none` models the
`AttributeError` the code would raise on an empty transcript
(`last_interviewer_message` is `None`). -/
def routeToSearchOrSummarize (maxSteps : Nat) (msgs : List Msg) : Option String :=
  if maxSteps ≤ countExpert msgs then some "summarize_results"
  else
    match msgs.getLast? with
    | some lastMsg =>
        if containsTerminationPhrase lastMsg.content then some "summarize_results"
        else some "search_web_and_answer"
    | none => none

/-- The loop of the compiled graph, driven by oracles for the two
language-model calls: `askO` yields the Interviewer question appended by
`ask_question`; `ansO` yields the Expert answer appended by
`search_web_and_answer`, or `none` when the search produced no results
and the node raises `ValueError`.  Fuel bounds the recursion; `none`
means the fuel ran out before the loop settled. -/
def runLoop (askO : List Msg → String) (ansO : List Msg → Option String)
    (maxSteps : Nat) : Nat → List Msg → Option (Except String (List Msg))
  | 0, _ => none
  | fuel + 1, msgs =>
    let afterAsk := msgs ++ [⟨"Interviewer", askO msgs⟩]
    match routeToSearchOrSummarize maxSteps afterAsk with
    | some route =>
        if route = "search_web_and_answer" then
          match ansO afterAsk with
          | some answer =>
              runLoop askO ansO maxSteps fuel (afterAsk ++ [⟨"Expert", answer⟩])
          | none =>
              some (Except.error
                "No search results found. Please try again with different queries.")
        else some (Except.ok afterAsk)
    | none => some (Except.error "AttributeError")

theorem countExpert_append_interviewer (msgs : List Msg) (q : String) :
    countExpert (msgs ++ [⟨"Interviewer", q⟩]) = countExpert msgs := by
  simp [countExpert, List.filter_append]

theorem countExpert_append_expert (msgs : List Msg) (a : String) :
    countExpert (msgs ++ [⟨"Expert", a⟩]) = countExpert msgs + 1 := by
  simp [countExpert, List.filter_append]

theorem route_summarize_of_max_reached (maxSteps : Nat) (msgs : List Msg)
    (h : maxSteps ≤ countExpert msgs) :
    routeToSearchOrSummarize maxSteps msgs = some "summarize_results" := by
  simp [routeToSearchOrSummarize, h]

theorem countExpert_lt_of_route_ne (maxSteps : Nat) (msgs : List Msg)
    (h : routeToSearchOrSummarize maxSteps msgs ≠ some "summarize_results") :
    countExpert msgs < maxSteps := by
  by_contra hc
  exact h (route_summarize_of_max_reached maxSteps msgs (Nat.le_of_not_lt hc))

theorem runLoop_reaches_summarize
    (askO : List Msg → String) (ansO : List Msg → Option String) (maxSteps : Nat)
    (hans : ∀ m, (ansO m).isSome) :
    ∀ fuel msgs, countExpert msgs ≤ maxSteps → maxSteps - countExpert msgs < fuel →
      ∃ t, runLoop askO ansO maxSteps fuel msgs = some (Except.ok t) ∧
        countExpert t ≤ maxSteps := by
  intro fuel
  induction fuel with
  | zero =>
    intro msgs _ hfuel
    omega
  | succ fuel ih =>
    intro msgs hcount hfuel
    have hask : countExpert (msgs ++ [⟨"Interviewer", askO msgs⟩]) = countExpert msgs :=
      countExpert_append_interviewer msgs (askO msgs)
    by_cases hroute :
        routeToSearchOrSummarize maxSteps (msgs ++ [⟨"Interviewer", askO msgs⟩])
          = some "summarize_results"
    · refine ⟨msgs ++ [⟨"Interviewer", askO msgs⟩], ?_, by omega⟩
      simp [runLoop, hroute]
    · have hlt : countExpert (msgs ++ [⟨"Interviewer", askO msgs⟩]) < maxSteps :=
        countExpert_lt_of_route_ne maxSteps _ hroute
      have hlast : (msgs ++ [Msg.mk "Interviewer" (askO msgs)]).getLast? =
          some (Msg.mk "Interviewer" (askO msgs)) := by
        simp
      have hroute2 : routeToSearchOrSummarize maxSteps
          (msgs ++ [⟨"Interviewer", askO msgs⟩]) = some "summarize_results" ∨
          routeToSearchOrSummarize maxSteps
          (msgs ++ [⟨"Interviewer", askO msgs⟩]) = some "search_web_and_answer" := by
        simp only [routeToSearchOrSummarize, hlast]
        by_cases h1 : maxSteps ≤ countExpert (msgs ++ [⟨"Interviewer", askO msgs⟩])
        · simp [h1]
        · by_cases h2 : containsTerminationPhrase (askO msgs) <;> simp [h1, h2]
      rcases hroute2 with h | h
      · exact absurd h hroute
      · rcases Option.isSome_iff_exists.mp
          (hans (msgs ++ [⟨"Interviewer", askO msgs⟩])) with ⟨answer, hanswer⟩
        have hstep : runLoop askO ansO maxSteps (fuel + 1) msgs =
            runLoop askO ansO maxSteps fuel
              ((msgs ++ [⟨"Interviewer", askO msgs⟩]) ++ [⟨"Expert", answer⟩]) := by
          simp [runLoop, h, hanswer]
        have hcount2 : countExpert
            ((msgs ++ [⟨"Interviewer", askO msgs⟩]) ++ [⟨"Expert", answer⟩]) =
            countExpert msgs + 1 := by
          rw [countExpert_append_expert, hask]
        have hrec := ih ((msgs ++ [⟨"Interviewer", askO msgs⟩]) ++ [⟨"Expert", answer⟩])
          (by omega) (by omega)
        rcases hrec with ⟨t, ht, htc⟩
        exact ⟨t, hstep ▸ ht, htc⟩

/-- C5: for every `max_steps` and every pair of model oracles — also ones
that never emit the termination phrase — whenever each search-and-answer
step succeeds, the loop started on the empty transcript reaches the
terminal summarize state within `max_steps + 1` routing decisions, the
final transcript holds at most `max_steps` Expert turns, and the routing
decision always selects summarization once the Expert-turn count has
reached `max_steps`. -/
theorem convergence_loop_terminates
    (askO : List Msg → String) (ansO : List Msg → Option String) (maxSteps : Nat)
    (hans : ∀ m, (ansO m).isSome) :
    (∃ t, runLoop askO ansO maxSteps (maxSteps + 1) [] = some (Except.ok t) ∧
        countExpert t ≤ maxSteps) ∧
    (∀ msgs, maxSteps ≤ countExpert msgs →
        routeToSearchOrSummarize maxSteps msgs = some "summarize_results") := by
  constructor
  · exact runLoop_reaches_summarize askO ansO maxSteps hans (maxSteps + 1) []
      (by simp [countExpert]) (by simp [countExpert])
  · intro msgs h
    exact route_summarize_of_max_reached maxSteps msgs h

/-- A concrete interviewer oracle that never emits the termination
phrase. -/
def exAskOracle : List Msg → String := fun _ => "What is the revenue of Acme?"

/-- A concrete answer oracle whose searches always succeed. -/
def exAnswerOracle : List Msg → Option String := fun _ => some "Revenue is unknown."

/-- Witness for C5 at the concrete oracles with `max_steps = 2`. -/
theorem convergence_loop_terminates_witness :
    (∃ t, runLoop exAskOracle exAnswerOracle 2 3 [] = some (Except.ok t) ∧
        countExpert t ≤ 2) ∧
    (∀ msgs, 2 ≤ countExpert msgs →
        routeToSearchOrSummarize 2 msgs = some "summarize_results") :=
  convergence_loop_terminates exAskOracle exAnswerOracle 2 (fun _ => rfl)

/-- C6: on a transcript whose last message is the most recent Interviewer
turn, the routing decision selects summarize whenever that turn contains
the termination phrase, regardless of the Expert-turn count; and in every
other case with fewer than `max_steps` Expert turns it selects
search-and-answer. -/
theorem routing_decision_on_latest_interviewer_turn
    (maxSteps : Nat) (msgs : List Msg) (q : String)
    (hlast : msgs.getLast? = some ⟨"Interviewer", q⟩) :
    (containsTerminationPhrase q = true →
        routeToSearchOrSummarize maxSteps msgs = some "summarize_results") ∧
    (containsTerminationPhrase q = false → countExpert msgs < maxSteps →
        routeToSearchOrSummarize maxSteps msgs = some "search_web_and_answer") := by
  constructor
  · intro hphrase
    by_cases hmax : maxSteps ≤ countExpert msgs
    · exact route_summarize_of_max_reached maxSteps msgs hmax
    · simp [routeToSearchOrSummarize, hmax, hlast, hphrase]
  · intro hphrase hcount
    have hmax : ¬ maxSteps ≤ countExpert msgs := by omega
    simp [routeToSearchOrSummarize, hmax, hlast, hphrase]

/-- Witness for C6: a transcript ending in an Interviewer turn with the
phrase routes to summarize; one without it and below the step budget
routes to search. -/
theorem routing_decision_witness :
    routeToSearchOrSummarize 2 [⟨"Interviewer", "We are done. Thank you"⟩] =
      some "summarize_results" ∧
    routeToSearchOrSummarize 2 [⟨"Interviewer", "What is the revenue of Acme?"⟩] =
      some "search_web_and_answer" :=
  ⟨(routing_decision_on_latest_interviewer_turn 2
      [⟨"Interviewer", "We are done. Thank you"⟩] "We are done. Thank you" rfl).1
      (by decide),
   (routing_decision_on_latest_interviewer_turn 2
      [⟨"Interviewer", "What is the revenue of Acme?"⟩] "What is the revenue of Acme?"
      rfl).2 (by decide) (by decide)⟩

/-! ## The research workflow graph

`CompanyResearchAgent.__init__`
(src/src/company_researcher/core/agents/company_researcher.py lines
63-76) builds the graph `START → background_research →
{financial_health_research, market_position_research} →
summarize_results → END` over `CompanyResearchState`, whose `results`
field merges by list concatenation (`Annotated[list, operator.add]`).
The execution engine itself is the external langgraph library, not code
of this repository: the scheduling contract is modelled from the
specification of the Workflow Graph.
-/

/-- The nodes of the company-research graph. -/
inductive CRNode where
  | background : CRNode
  | financial : CRNode
  | market : CRNode
  | summarize : CRNode
deriving DecidableEq

/-- The predecessor sets read off the `add_edge` calls of
`CompanyResearchAgent.__init__`. -/
def crPreds : CRNode → List CRNode
  | CRNode.background => []
  | CRNode.financial => [CRNode.background]
  | CRNode.market => [CRNode.background]
  | CRNode.summarize => [CRNode.financial, CRNode.market]

/-- Modelled from the spec: the execution engine of the workflow graph
(the langgraph scheduler, not part of this repository) runs nodes in some
order in which a node starts only after every one of its predecessors has
completed and had its patch merged.  `validCRSchedule done sched` holds
when `sched` is such an order continuing from the completed list
`done`. -/
def validCRSchedule (done : List CRNode) : List CRNode → Bool
  | [] => true
  | n :: rest =>
      (crPreds n).all (fun p => done.contains p) && !done.contains n
        && validCRSchedule (done ++ [n]) rest

/-- The nodes completed and merged before `n` runs in a schedule. -/
def completedBefore (sched : List CRNode) (n : CRNode) : List CRNode :=
  sched.takeWhile (fun m => m ≠ n)

/-- The contribution of each node to the `results` field, merged by list
concatenation: each topic-research branch appends its summary message
(`return {"results": [summary]}`); the other nodes do not touch
`results`. -/
def nodeResultsPatch (finSummary marketSummary : String) : CRNode → List String
  | CRNode.financial => [finSummary]
  | CRNode.market => [marketSummary]
  | _ => []

/-- The `results` field of the state a node receives: the concatenated
patches of all nodes completed before it. -/
def mergedResults (finSummary marketSummary : String) (ran : List CRNode) : List String :=
  (ran.map (nodeResultsPatch finSummary marketSummary)).flatten

theorem mem_mergedResults_of_mem (finSummary marketSummary : String)
    (ran : List CRNode) (n : CRNode) (hn : n ∈ ran) :
    ∀ s ∈ nodeResultsPatch finSummary marketSummary n,
      s ∈ mergedResults finSummary marketSummary ran := by
  intro s hs
  simp only [mergedResults, List.mem_flatten]
  exact ⟨nodeResultsPatch finSummary marketSummary n, List.mem_map_of_mem _ hn, hs⟩

theorem preds_completed_before (target : CRNode) :
    ∀ (sched done : List CRNode), validCRSchedule done sched = true →
      target ∈ sched →
      ∀ p ∈ crPreds target, p ∈ done ++ completedBefore sched target := by
  intro sched
  induction sched with
  | nil =>
    intro done _ hmem
    simp at hmem
  | cons n rest ih =>
    intro done hvalid hmem p hp
    have hv := hvalid
    simp only [validCRSchedule, Bool.and_eq_true, List.all_eq_true] at hv
    by_cases hn : n = target
    · subst hn
      have hpre : p ∈ done := by
        have := hv.1.1 p hp
        simpa using this
      simp [completedBefore, List.mem_append, hpre]
    · have hmem2 : target ∈ rest := by
        rcases List.mem_cons.mp hmem with h | h
        · exact absurd h.symm hn
        · exact h
      have hrec := ih (done ++ [n]) hv.2 hmem2 p hp
      have hbefore : completedBefore (n :: rest) target =
          n :: completedBefore rest target := by
        simp [completedBefore, List.takeWhile_cons, hn]
      rw [hbefore]
      simp only [List.append_assoc] at hrec ⊢
      simpa using hrec

/-- C8: in every execution order the engine contract allows — whichever
of the two branches completes first — the fan-in summarize node runs only
after both the financial-health and market-position branches have
completed, and the `results` field of the state it receives contains both
branch summaries. -/
theorem fan_in_observes_all_predecessor_patches
    (sched : List CRNode) (finSummary marketSummary : String)
    (hvalid : validCRSchedule [] sched = true)
    (hrun : CRNode.summarize ∈ sched) :
    CRNode.financial ∈ completedBefore sched CRNode.summarize ∧
    CRNode.market ∈ completedBefore sched CRNode.summarize ∧
    finSummary ∈ mergedResults finSummary marketSummary
      (completedBefore sched CRNode.summarize) ∧
    marketSummary ∈ mergedResults finSummary marketSummary
      (completedBefore sched CRNode.summarize) := by
  have hfin : CRNode.financial ∈ completedBefore sched CRNode.summarize := by
    have := preds_completed_before CRNode.summarize sched [] hvalid hrun
      CRNode.financial (by simp [crPreds])
    simpa using this
  have hmarket : CRNode.market ∈ completedBefore sched CRNode.summarize := by
    have := preds_completed_before CRNode.summarize sched [] hvalid hrun
      CRNode.market (by simp [crPreds])
    simpa using this
  refine ⟨hfin, hmarket, ?_, ?_⟩
  · exact mem_mergedResults_of_mem finSummary marketSummary _ CRNode.financial hfin
      finSummary (by simp [nodeResultsPatch])
  · exact mem_mergedResults_of_mem finSummary marketSummary _ CRNode.market hmarket
      marketSummary (by simp [nodeResultsPatch])

/-- Witness for C8 at the interleaving that completes the market branch
first. -/
theorem fan_in_observes_all_predecessor_patches_witness :
    CRNode.financial ∈ completedBefore
      [CRNode.background, CRNode.market, CRNode.financial, CRNode.summarize]
      CRNode.summarize ∧
    CRNode.market ∈ completedBefore
      [CRNode.background, CRNode.market, CRNode.financial, CRNode.summarize]
      CRNode.summarize ∧
    "fin report" ∈ mergedResults "fin report" "market report"
      (completedBefore
        [CRNode.background, CRNode.market, CRNode.financial, CRNode.summarize]
        CRNode.summarize) ∧
    "market report" ∈ mergedResults "fin report" "market report"
      (completedBefore
        [CRNode.background, CRNode.market, CRNode.financial, CRNode.summarize]
        CRNode.summarize) :=
  fan_in_observes_all_predecessor_patches
    [CRNode.background, CRNode.market, CRNode.financial, CRNode.summarize]
    "fin report" "market report" (by decide) (by decide)

/-! ## Fatal branch errors and the final synthesis

`CompanyResearchState` (company_researcher.py lines 27-31) has no
`errors` field, and neither `perform_research` nor any node of the graph
catches exceptions: a fatal error raised inside a branch propagates out
of the graph invocation.  The sequential executor below runs the nodes in
one scheduling order the graph allows and stops at the first error, which
is what the invocation does when a node raises.
-/

/-- `CompanyResearchState`: the fields of the fan-out graph state.  It
carries no errors list. -/
structure CompanyResearchState where
  messages : List Msg
  company_name : String
  company_url : String
  company_background : String
  results : List String
deriving DecidableEq

/-- The behavior of each node as an oracle: a state transformer that may
raise.  A raise is uncaught in the source, so it aborts the whole
invocation. -/
def runCRSequence (behavior : CRNode → CompanyResearchState → Except String CompanyResearchState) :
    List CRNode → CompanyResearchState →
      Except String CompanyResearchState × List CRNode
  | [], st => (Except.ok st, [])
  | n :: rest, st =>
      match behavior n st with
      | Except.ok st2 =>
          let tail := runCRSequence behavior rest st2
          (tail.1, n :: tail.2)
      | Except.error e => (Except.error e, [])

/-- The node order of the graph edges with the financial branch scheduled
first. -/
def crOrder : List CRNode :=
  [CRNode.background, CRNode.financial, CRNode.market, CRNode.summarize]

/-- Concrete behaviors in which the financial-health branch raises the
empty-search-results error and every other node succeeds. -/
def failingFinancialBehavior (n : CRNode) (st : CompanyResearchState) :
    Except String CompanyResearchState :=
  match n with
  | CRNode.background => Except.ok { st with company_background := "Acme makes anvils." }
  | CRNode.financial =>
      Except.error "No search results found. Please try again with different queries."
  | CRNode.market => Except.ok { st with results := st.results ++ ["market report"] }
  | CRNode.summarize => Except.ok { st with results := st.results ++ ["final report"] }

/-- An initial state for one research request. -/
def crInitState : CompanyResearchState :=
  { messages := [], company_name := "Acme", company_url := "acme.example",
    company_background := "", results := [] }

/-- C7 evidence: when the financial-health branch fails fatally, the
whole invocation returns the error: the summarize node never runs, no
partial report is produced, the sibling market branch is not reached
either, and nothing records the error into any state field — the state
type has no errors list at all.  This contradicts the claimed containment
behavior. -/
theorem fatal_branch_error_aborts_run_without_recording :
    (runCRSequence failingFinancialBehavior crOrder crInitState).1 =
      Except.error "No search results found. Please try again with different queries." ∧
    CRNode.summarize ∉ (runCRSequence failingFinancialBehavior crOrder crInitState).2 ∧
    CRNode.market ∉ (runCRSequence failingFinancialBehavior crOrder crInitState).2 := by
  refine ⟨rfl, ?_, ?_⟩ <;> decide

end CompanyResearcher
